import Mathlib

/-!
Shallow embedding of the `tauri-plugin-rstate` crate (imoize/tauri-plugin-rstate).

Source files embedded here:
  * `src/crates/plugin-rstate/src/models.rs`   — `Action`, `get_state` (dot-key lookup),
    the `RstateManager` capability;
  * `src/crates/plugin-rstate/src/desktop.rs`  — `states_are_equal`, the `Rstate` facade
    (`dispatch`, `register_state_manager`, `is_registered`, `get_initial_state`);
  * `src/crates/plugin-rstate/src/state_builder.rs` — `BuiltStateManager` and its
    `dispatch`/`get_initial_state`;
  * `src/crates/plugin-rstate/src/error.rs`    — the `RstateError` taxonomy.

Modelling conventions:
  * Rust `String`/`str` values are `List Char` (named `Str` below); all string
    operations (`replace`, `split`, JSON-pointer unescaping) are written out
    character by character, mirroring the byte-level behaviour of the Rust code.
  * `serde_json::Value` is the inductive `Json`; `serde_json::Number` is `JNumber`
    with the same three-way representation (`PosInt`/`NegInt`/`Float`).  Finite
    `f64` payloads are modelled as rationals; `serde_json` numbers are always
    finite (no NaN/infinity), and no claim below depends on binary rounding.
  * `serde_json::Map` is an association list whose well-formedness (no duplicate
    keys) is the predicate `jsonWf`; real maps always satisfy it.
  * Mutex acquisition and release, and event emission, are recorded as an event
    trace (`Ev`) so that the lock-discipline of `Rstate::dispatch` is visible.
-/

/-- Rust strings, character by character. -/
abbrev Str := List Char

/-! ## serde_json numbers (`serde_json::Number`)

`serde_json` stores a number as `PosInt(u64)`, `NegInt(i64)` (always negative) or
`Float(f64)` (always finite).  `as_i64` succeeds on `NegInt`, and on `PosInt`
when the value fits in `i64`; `as_f64` always succeeds.  The float view is
modelled with exact rationals. -/
inductive JNumber where
  | posInt (n : Nat)
  | negInt (i : Int)
  | float (q : ℚ)
  deriving DecidableEq

/-- Largest `i64` value, the bound used by `Number::as_i64` on the `PosInt` arm. -/
def i64Max : Int := 9223372036854775807

/-- The `serde_json::Number::as_i64`. -/
def JNumber.asI64 : JNumber → Option Int
  | .posInt n => if (n : Int) ≤ i64Max then some (n : Int) else none
  | .negInt i => some i
  | .float _ => none

/-- The rational reading of a number (the value `as_f64` returns). -/
def JNumber.toRat : JNumber → ℚ
  | .posInt n => (n : ℚ)
  | .negInt i => (i : ℚ)
  | .float q => q

/-- The `serde_json::Number::as_f64`: defined on every finite number. -/
def JNumber.asF64 (a : JNumber) : Option ℚ := some a.toRat

/-- The `f64::EPSILON` = 2⁻⁵². -/
def f64Epsilon : ℚ := 1 / 2 ^ 52

/-- The `Number` arm of `states_are_equal` in `desktop.rs`: compare via `as_i64`
when both sides have an integer view, else via `as_f64` with an epsilon
tolerance. -/
def numbersEqual (a b : JNumber) : Bool :=
  match a.asI64, b.asI64 with
  | some x, some y => decide (x = y)
  | _, _ =>
    match a.asF64, b.asF64 with
    | some x, some y => decide (|x - y| < f64Epsilon)
    | _, _ => false

/-! ## serde_json values (`serde_json::Value`) -/

/-- The `serde_json::Value`.  Objects are association lists of key/value pairs. -/
inductive Json where
  | null
  | bool (b : Bool)
  | num (n : JNumber)
  | str (s : Str)
  | arr (xs : List Json)
  | obj (kvs : List (Str × Json))

instance : Inhabited Json := ⟨.null⟩

/-- The `serde_json::Map::get`: the value stored under a key (first match). -/
def objGet (kvs : List (Str × Json)) (k : Str) : Option Json :=
  match kvs with
  | [] => none
  | (k', v) :: rest => if k' = k then some v else objGet rest k

theorem objGet_sizeOf_lt {kvs : List (Str × Json)} {k : Str} {v : Json}
    (h : objGet kvs k = some v) : sizeOf v < sizeOf kvs := by
  induction kvs with
  | nil => simp [objGet] at h
  | cons p rest ih =>
    obtain ⟨k', v'⟩ := p
    rw [objGet] at h
    split at h
    · cases h
      simp only [List.cons.sizeOf_spec, Prod.mk.sizeOf_spec]
      omega
    · have := ih h
      simp only [List.cons.sizeOf_spec, Prod.mk.sizeOf_spec]
      omega

/-! ## Deep structural equality (`states_are_equal` in `desktop.rs`) -/

mutual

/-- The `states_are_equal` from `desktop.rs`: deep comparison of two JSON values. -/
def statesAreEqual : Json → Json → Bool
  | .null, .null => true
  | .bool a, .bool b => a == b
  | .num a, .num b => numbersEqual a b
  | .str a, .str b => decide (a = b)
  | .arr a, .arr b => decide (a.length = b.length) && arrayItemsEqual a b
  | .obj a, .obj b => decide (a.length = b.length) && objEntriesMatch a b
  | _, _ => false
termination_by a b => sizeOf a + sizeOf b

/-- The `zip`-and-`all` comparison of the `Array` arm of `states_are_equal`
(`zip` stops at the shorter list, as in Rust). -/
def arrayItemsEqual : List Json → List Json → Bool
  | a :: as, b :: bs => statesAreEqual a b && arrayItemsEqual as bs
  | _, _ => true
termination_by a b => sizeOf a + sizeOf b

/-- The `iter().all(...)` comparison of the `Object` arm of `states_are_equal`:
every entry of the first object must be matched, via `get`, in the second. -/
def objEntriesMatch : List (Str × Json) → List (Str × Json) → Bool
  | [], _ => true
  | (k, v) :: rest, b =>
    (match h : objGet b k with
     | some w => statesAreEqual v w
     | none => false) && objEntriesMatch rest b
termination_by a b => sizeOf a + sizeOf b
decreasing_by
  · have := objGet_sizeOf_lt h
    simp only [List.cons.sizeOf_spec, Prod.mk.sizeOf_spec]
    omega
  · simp only [List.cons.sizeOf_spec, Prod.mk.sizeOf_spec]
    omega

end

@[simp] theorem statesAreEqual_null : statesAreEqual .null .null = true := by
  simp [statesAreEqual]

@[simp] theorem statesAreEqual_bool (a b : Bool) :
    statesAreEqual (.bool a) (.bool b) = (a == b) := by
  simp [statesAreEqual]

@[simp] theorem statesAreEqual_num (a b : JNumber) :
    statesAreEqual (.num a) (.num b) = numbersEqual a b := by
  simp [statesAreEqual]

@[simp] theorem statesAreEqual_str (a b : Str) :
    statesAreEqual (.str a) (.str b) = decide (a = b) := by
  simp [statesAreEqual]

@[simp] theorem statesAreEqual_arr (a b : List Json) :
    statesAreEqual (.arr a) (.arr b)
      = (decide (a.length = b.length) && arrayItemsEqual a b) := by
  simp [statesAreEqual]

@[simp] theorem statesAreEqual_obj (a b : List (Str × Json)) :
    statesAreEqual (.obj a) (.obj b)
      = (decide (a.length = b.length) && objEntriesMatch a b) := by
  simp [statesAreEqual]

example : statesAreEqual (.num (.posInt 3)) (.num (.posInt 3)) = true := by
  simp [numbersEqual, JNumber.asI64, i64Max]

example : statesAreEqual .null (.bool true) = false := by
  simp [statesAreEqual]

/-! ## Facts about the number comparison -/

@[simp] theorem JNumber.asF64_eq (a : JNumber) : a.asF64 = some a.toRat := rfl

theorem JNumber.toRat_of_asI64 {a : JNumber} {x : Int} (h : a.asI64 = some x) :
    a.toRat = (x : ℚ) := by
  cases a with
  | posInt n =>
    rw [JNumber.asI64] at h
    split at h
    · cases h; simp [JNumber.toRat]
    · cases h
  | negInt i => cases h; simp [JNumber.toRat]
  | float q => cases h

theorem f64Epsilon_pos : 0 < f64Epsilon := by norm_num [f64Epsilon]

theorem f64Epsilon_lt_one : f64Epsilon < 1 := by norm_num [f64Epsilon]

theorem numbersEqual_refl (a : JNumber) : numbersEqual a a = true := by
  rw [numbersEqual]
  cases h : a.asI64 with
  | some x => simp
  | none => simp [abs_of_nonneg, f64Epsilon_pos]

theorem numbersEqual_symm_mp {a b : JNumber} (h : numbersEqual a b = true) :
    numbersEqual b a = true := by
  rw [numbersEqual] at h ⊢
  cases ha : a.asI64 <;> cases hb : b.asI64 <;> simp [ha, hb] at h ⊢
  · rwa [abs_sub_comm]
  · rwa [abs_sub_comm]
  · rwa [abs_sub_comm]
  · omega

/-! ## Well-formed JSON values

Real `serde_json` objects are maps, so keys never repeat.  `jsonWf` states that
invariant recursively; the association-list embedding needs it wherever the
claims quantify over "every state". -/

/-- Keys of an object, in order. -/
def keyList (kvs : List (Str × Json)) : List Str := kvs.map Prod.fst

mutual

/-- Well-formedness: every object in the tree has pairwise-distinct keys. -/
def jsonWf : Json → Bool
  | .arr xs => jsonListWf xs
  | .obj kvs => decide ((keyList kvs).Nodup) && jsonEntriesWf kvs
  | _ => true
termination_by j => sizeOf j

def jsonListWf : List Json → Bool
  | [] => true
  | x :: xs => jsonWf x && jsonListWf xs
termination_by l => sizeOf l

def jsonEntriesWf : List (Str × Json) → Bool
  | [] => true
  | (_, v) :: rest => jsonWf v && jsonEntriesWf rest
termination_by l => sizeOf l

end

@[simp] theorem jsonWf_null : jsonWf .null = true := by simp [jsonWf]
@[simp] theorem jsonWf_bool (b : Bool) : jsonWf (.bool b) = true := by simp [jsonWf]
@[simp] theorem jsonWf_num (n : JNumber) : jsonWf (.num n) = true := by simp [jsonWf]
@[simp] theorem jsonWf_str (s : Str) : jsonWf (.str s) = true := by simp [jsonWf]
@[simp] theorem jsonWf_arr (xs : List Json) : jsonWf (.arr xs) = jsonListWf xs := by
  simp [jsonWf]
@[simp] theorem jsonWf_obj (kvs : List (Str × Json)) :
    jsonWf (.obj kvs) = (decide ((keyList kvs).Nodup) && jsonEntriesWf kvs) := by
  simp [jsonWf]

theorem jsonListWf_iff {xs : List Json} :
    jsonListWf xs = true ↔ ∀ x ∈ xs, jsonWf x = true := by
  induction xs with
  | nil => simp [jsonListWf]
  | cons x xs ih => rw [jsonListWf]; simp [ih]

theorem jsonEntriesWf_iff {kvs : List (Str × Json)} :
    jsonEntriesWf kvs = true ↔ ∀ p ∈ kvs, jsonWf p.2 = true := by
  induction kvs with
  | nil => simp [jsonEntriesWf]
  | cons p rest ih =>
    obtain ⟨k, v⟩ := p
    rw [jsonEntriesWf]; simp [ih]

/-! ## Association-list lemmas for objects -/

theorem mem_of_objGet {kvs : List (Str × Json)} {k : Str} {v : Json}
    (h : objGet kvs k = some v) : (k, v) ∈ kvs := by
  induction kvs with
  | nil => simp [objGet] at h
  | cons p rest ih =>
    obtain ⟨k', v'⟩ := p
    rw [objGet] at h
    split at h
    · cases h; subst ‹k' = k›; exact List.mem_cons_self ..
    · exact List.mem_cons_of_mem _ (ih h)

theorem objGet_of_mem_nodup {kvs : List (Str × Json)} {k : Str} {v : Json}
    (hnd : (keyList kvs).Nodup) (hmem : (k, v) ∈ kvs) : objGet kvs k = some v := by
  induction kvs with
  | nil => simp at hmem
  | cons p rest ih =>
    obtain ⟨k', v'⟩ := p
    rw [keyList, List.map_cons, List.nodup_cons] at hnd
    rw [objGet]
    rcases List.mem_cons.mp hmem with heq | hmem'
    · cases heq; simp
    · have hk : k' ≠ k := by
        intro hkk
        subst hkk
        exact hnd.1 (List.mem_map.mpr ⟨(k', v), hmem', rfl⟩)
      rw [if_neg hk]
      exact ih hnd.2 hmem'

theorem mem_keyList_iff {kvs : List (Str × Json)} {k : Str} :
    k ∈ keyList kvs ↔ ∃ v, (k, v) ∈ kvs := by
  rw [keyList]
  constructor
  · intro h
    rcases List.mem_map.mp h with ⟨⟨k', v⟩, hmem, hk⟩
    exact ⟨v, by cases hk; exact hmem⟩
  · rintro ⟨v, hmem⟩
    exact List.mem_map.mpr ⟨(k, v), hmem, rfl⟩

@[simp] theorem keyList_length (kvs : List (Str × Json)) :
    (keyList kvs).length = kvs.length := by simp [keyList]

/-! ## Characterizations of the recursive comparison -/

@[simp] theorem arrayItemsEqual_nil_left (bs : List Json) :
    arrayItemsEqual [] bs = true := by
  cases bs <;> simp [arrayItemsEqual]

@[simp] theorem arrayItemsEqual_nil_right (as : List Json) :
    arrayItemsEqual as [] = true := by
  cases as <;> simp [arrayItemsEqual]

theorem arrayItemsEqual_cons (a b : Json) (as bs : List Json) :
    arrayItemsEqual (a :: as) (b :: bs)
      = (statesAreEqual a b && arrayItemsEqual as bs) := by
  rw [arrayItemsEqual]

@[simp] theorem objEntriesMatch_nil (b : List (Str × Json)) :
    objEntriesMatch [] b = true := by
  rw [objEntriesMatch]

theorem objEntriesMatch_cons (k : Str) (v : Json) (rest b : List (Str × Json)) :
    objEntriesMatch ((k, v) :: rest) b
      = ((match objGet b k with
          | some w => statesAreEqual v w
          | none => false) && objEntriesMatch rest b) := by
  rw [objEntriesMatch]
  cases hbk : objGet b k <;> simp [hbk]

theorem objEntriesMatch_iff {l b : List (Str × Json)} :
    objEntriesMatch l b = true ↔
      ∀ p ∈ l, ∃ w, objGet b p.1 = some w ∧ statesAreEqual p.2 w = true := by
  induction l with
  | nil => simp
  | cons p rest ih =>
    obtain ⟨k, v⟩ := p
    rw [objEntriesMatch_cons, Bool.and_eq_true, ih]
    cases hbk : objGet b k with
    | some w =>
      simp only [hbk, List.mem_cons, forall_eq_or_imp]
      constructor
      · rintro ⟨h1, h2⟩
        exact ⟨⟨w, rfl, h1⟩, h2⟩
      · rintro ⟨⟨w', hw', hvw'⟩, h2⟩
        cases hw'
        exact ⟨hvw', h2⟩
    | none =>
      simp only [hbk, List.mem_cons, forall_eq_or_imp]
      constructor
      · rintro ⟨h1, _⟩
        cases h1
      · rintro ⟨⟨w', hw', _⟩, _⟩
        cases hw'

/-! ## Reflexivity of the deep comparison (on well-formed values) -/

theorem arrayItemsEqual_refl {xs : List Json}
    (h : ∀ x ∈ xs, statesAreEqual x x = true) : arrayItemsEqual xs xs = true := by
  induction xs with
  | nil => simp
  | cons x rest ih =>
    rw [arrayItemsEqual_cons, Bool.and_eq_true]
    exact ⟨h x (List.mem_cons_self x rest),
      ih fun y hy => h y (List.mem_cons_of_mem _ hy)⟩

theorem statesAreEqual_refl_sized :
    ∀ n, ∀ x : Json, sizeOf x ≤ n → jsonWf x = true → statesAreEqual x x = true := by
  intro n
  induction n using Nat.strong_induction_on with
  | _ n ih =>
    intro x hsize hwf
    match x with
    | .null => simp
    | .bool b => simp
    | .num a => simp [numbersEqual_refl]
    | .str s => simp
    | .arr xs =>
      rw [statesAreEqual_arr, Bool.and_eq_true]
      refine ⟨by simp, arrayItemsEqual_refl ?_⟩
      intro y hy
      have hylt : sizeOf y < sizeOf (Json.arr xs) := by
        have := List.sizeOf_lt_of_mem hy
        simp only [Json.arr.sizeOf_spec]
        omega
      have hn : sizeOf (Json.arr xs) ≤ n := hsize
      have hywf : jsonWf y = true := by
        rw [jsonWf_arr] at hwf
        exact jsonListWf_iff.mp hwf y hy
      exact ih (sizeOf y) (by omega) y le_rfl hywf
    | .obj kvs =>
      rw [statesAreEqual_obj, Bool.and_eq_true]
      rw [jsonWf_obj, Bool.and_eq_true, decide_eq_true_eq] at hwf
      refine ⟨by simp, objEntriesMatch_iff.mpr ?_⟩
      intro p hp
      obtain ⟨k, v⟩ := p
      refine ⟨v, objGet_of_mem_nodup hwf.1 hp, ?_⟩
      have hvlt : sizeOf v < sizeOf (Json.obj kvs) := by
        have h1 := List.sizeOf_lt_of_mem hp
        simp only [Json.obj.sizeOf_spec, Prod.mk.sizeOf_spec] at h1 ⊢
        omega
      have hn : sizeOf (Json.obj kvs) ≤ n := hsize
      have hvwf : jsonWf v = true := jsonEntriesWf_iff.mp hwf.2 (k, v) hp
      exact ih (sizeOf v) (by omega) v le_rfl hvwf

/-- Reflexivity of `states_are_equal` on well-formed values. -/
theorem statesAreEqual_refl (x : Json) (hwf : jsonWf x = true) :
    statesAreEqual x x = true :=
  statesAreEqual_refl_sized (sizeOf x) x le_rfl hwf

/-! ## Symmetry of the deep comparison (on well-formed values) -/

theorem arrayItemsEqual_symm_mp {as bs : List Json}
    (hsym : ∀ x ∈ as, ∀ y ∈ bs, statesAreEqual x y = true → statesAreEqual y x = true)
    (h : arrayItemsEqual as bs = true) : arrayItemsEqual bs as = true := by
  induction as generalizing bs with
  | nil => simp
  | cons a as ih =>
    cases bs with
    | nil => simp
    | cons b bs =>
      rw [arrayItemsEqual_cons, Bool.and_eq_true] at h ⊢
      refine ⟨hsym a (List.mem_cons_self a as) b (List.mem_cons_self b bs) h.1, ?_⟩
      exact ih
        (fun x hx y hy => hsym x (List.mem_cons_of_mem _ hx) y (List.mem_cons_of_mem _ hy))
        h.2

theorem objEntriesMatch_symm_mp {a b : List (Str × Json)}
    (hna : (keyList a).Nodup) (hnb : (keyList b).Nodup)
    (hlen : a.length = b.length)
    (hsym : ∀ p ∈ a, ∀ q ∈ b, statesAreEqual p.2 q.2 = true → statesAreEqual q.2 p.2 = true)
    (h : objEntriesMatch a b = true) : objEntriesMatch b a = true := by
  have H := objEntriesMatch_iff.mp h
  have hsub : keyList a ⊆ keyList b := by
    intro k hk
    rcases mem_keyList_iff.mp hk with ⟨v, hv⟩
    rcases H (k, v) hv with ⟨w, hw, _⟩
    exact mem_keyList_iff.mpr ⟨w, mem_of_objGet hw⟩
  have hperm : List.Perm (keyList a) (keyList b) := by
    refine (List.subperm_of_subset hna hsub).perm_of_length_le ?_
    simp [hlen]
  refine objEntriesMatch_iff.mpr ?_
  rintro ⟨k, w⟩ hkw
  have hka : k ∈ keyList a :=
    hperm.mem_iff.mpr (mem_keyList_iff.mpr ⟨w, hkw⟩)
  rcases mem_keyList_iff.mp hka with ⟨v, hv⟩
  rcases H (k, v) hv with ⟨w', hw', hvw'⟩
  have hwb : objGet b k = some w := objGet_of_mem_nodup hnb hkw
  rw [hwb] at hw'
  cases hw'
  exact ⟨v, objGet_of_mem_nodup hna hv, hsym (k, v) hv (k, w) hkw hvw'⟩

theorem statesAreEqual_symm_mp_sized :
    ∀ n, ∀ a b : Json, sizeOf a ≤ n → jsonWf a = true → jsonWf b = true →
      statesAreEqual a b = true → statesAreEqual b a = true := by
  intro n
  induction n using Nat.strong_induction_on with
  | _ n ih =>
    intro a b hsize hwa hwb h
    cases a <;> cases b <;>
      first
      | (exfalso; revert h; simp [statesAreEqual]; done)
      | skip
    · simp
    · rename_i x y
      rw [statesAreEqual_bool] at h ⊢
      simp only [beq_iff_eq] at h ⊢
      exact h.symm
    · rename_i x y
      rw [statesAreEqual_num] at h ⊢
      exact numbersEqual_symm_mp h
    · rename_i x y
      rw [statesAreEqual_str, decide_eq_true_eq] at h ⊢
      exact h.symm
    · rename_i xs ys
      rw [statesAreEqual_arr, Bool.and_eq_true, decide_eq_true_eq] at h ⊢
      rw [jsonWf_arr] at hwa hwb
      refine ⟨h.1.symm, arrayItemsEqual_symm_mp ?_ h.2⟩
      intro x hx y hy hxy
      have h1 := List.sizeOf_lt_of_mem hx
      refine ih (sizeOf x) ?_ x y le_rfl (jsonListWf_iff.mp hwa x hx)
        (jsonListWf_iff.mp hwb y hy) hxy
      simp only [Json.arr.sizeOf_spec] at hsize
      omega
    · rename_i av bv
      rw [statesAreEqual_obj, Bool.and_eq_true, decide_eq_true_eq] at h ⊢
      rw [jsonWf_obj, Bool.and_eq_true, decide_eq_true_eq] at hwa hwb
      refine ⟨h.1.symm, objEntriesMatch_symm_mp hwa.1 hwb.1 h.1 ?_ h.2⟩
      intro p hp q hq hpq
      have h1 := List.sizeOf_lt_of_mem hp
      have hpwf := jsonEntriesWf_iff.mp hwa.2 p hp
      have hqwf := jsonEntriesWf_iff.mp hwb.2 q hq
      obtain ⟨k, v⟩ := p
      obtain ⟨k', w⟩ := q
      refine ih (sizeOf v) ?_ v w le_rfl hpwf hqwf hpq
      simp only [Json.obj.sizeOf_spec] at hsize
      simp only [Prod.mk.sizeOf_spec] at h1
      omega

/-- Symmetry of `states_are_equal` on well-formed values. -/
theorem statesAreEqual_symm (a b : Json) (hwa : jsonWf a = true) (hwb : jsonWf b = true) :
    statesAreEqual a b = statesAreEqual b a := by
  cases hab : statesAreEqual a b with
  | true => exact (statesAreEqual_symm_mp_sized (sizeOf a) a b le_rfl hwa hwb hab).symm
  | false =>
    cases hba : statesAreEqual b a with
    | false => rfl
    | true =>
      exact absurd (statesAreEqual_symm_mp_sized (sizeOf b) b a le_rfl hwb hwa hba)
        (by simp [hab])

/-- Order-insensitivity of the object comparison: a well-formed object is
`states_are_equal` to any reordering of its entries. -/
theorem statesAreEqual_obj_perm {kvs kvs' : List (Str × Json)}
    (hwf : jsonWf (Json.obj kvs) = true) (hperm : List.Perm kvs' kvs) :
    statesAreEqual (Json.obj kvs) (Json.obj kvs') = true := by
  rw [jsonWf_obj, Bool.and_eq_true, decide_eq_true_eq] at hwf
  have hnd' : (keyList kvs').Nodup :=
    ((hperm.map Prod.fst).nodup_iff).mpr hwf.1
  rw [statesAreEqual_obj, Bool.and_eq_true, decide_eq_true_eq]
  refine ⟨hperm.length_eq.symm, objEntriesMatch_iff.mpr ?_⟩
  rintro ⟨k, v⟩ hkv
  have hkv' : (k, v) ∈ kvs' := hperm.mem_iff.mpr hkv
  exact ⟨v, objGet_of_mem_nodup hnd' hkv',
    statesAreEqual_refl v (jsonEntriesWf_iff.mp hwf.2 (k, v) hkv)⟩

/-! ## Key-path lookup (`get_state` in `models.rs`, `Value::pointer` in serde_json)

`get_state(state, key)` returns a clone of the whole state on the empty key;
otherwise it builds `"/" + key.replace('.', "/")` and delegates to serde_json's
`Value::pointer`, which splits on `'/'`, unescapes each token (`~1` to `/`, then
`~0` to `~`), and walks the tree (object lookup by key, array lookup by parsed
index). -/

/-- The character map of `key.replace('.', "/")`. -/
def dotToSlash (c : Char) : Char := if c = '.' then '/' else c

/-- Rust `str::split(sep)` for a one-character separator: always at least one
(possibly empty) segment. -/
def splitOnChar (sep : Char) : Str → List Str
  | [] => [[]]
  | c :: rest =>
    if c = sep then [] :: splitOnChar sep rest
    else
      match splitOnChar sep rest with
      | s :: ss => (c :: s) :: ss
      | [] => [[c]]

theorem splitOnChar_ne_nil (sep : Char) (l : Str) : splitOnChar sep l ≠ [] := by
  cases l with
  | nil => simp [splitOnChar]
  | cons c rest =>
    rw [splitOnChar]
    split
    · simp
    · cases h : splitOnChar sep rest <;> simp

/-- Rust `str::replace(['~', d], [rep])` for the two-character pattern `'~' d`:
a left-to-right non-overlapping scan. -/
def replaceEsc (d rep : Char) : Str → Str
  | [] => []
  | [c] => [c]
  | c :: c' :: rest =>
    if c = '~' ∧ c' = d then rep :: replaceEsc d rep rest
    else c :: replaceEsc d rep (c' :: rest)

/-- serde_json's token unescaping: `.replace("~1", "/").replace("~0", "~")`. -/
def unescapeToken (t : Str) : Str := replaceEsc '0' '~' (replaceEsc '1' '/' t)

/-- Value of a digit string, most significant first. -/
def digitsToNat (s : Str) : Nat := s.foldl (fun acc c => acc * 10 + (c.toNat - 48)) 0

/-- serde_json's `parse_index`: rejects a leading `'+'` and leading zeros, then
parses an unsigned integer.  (Indices are unbounded naturals here; an index
larger than `usize::MAX` overflows to `None` in Rust and likewise resolves to
nothing here because no array is that long.) -/
def parseIndex (t : Str) : Option Nat :=
  match t with
  | [] => none
  | c :: rest =>
    if c = '+' then none
    else if c = '0' ∧ rest ≠ [] then none
    else if (c :: rest).all Char.isDigit then some (digitsToNat (c :: rest))
    else none

/-- The `try_fold` walk of `Value::pointer` over a list of (already unescaped)
tokens: objects are looked up by key, arrays by parsed index, anything else
resolves to nothing. -/
def resolveSegs : Json → List Str → Option Json
  | v, [] => some v
  | v, t :: rest =>
    match v with
    | .obj kvs =>
      match objGet kvs t with
      | some x => resolveSegs x rest
      | none => none
    | .arr xs =>
      match parseIndex t with
      | some i =>
        match xs.get? i with
        | some x => resolveSegs x rest
        | none => none
      | none => none
    | _ => none

/-- serde_json's `Value::pointer`. -/
def jsonPointer (v : Json) (p : Str) : Option Json :=
  match p with
  | [] => some v
  | c :: _ =>
    if c = '/' then
      resolveSegs v (((splitOnChar '/' p).drop 1).map unescapeToken)
    else none

/-- The `get_state` from `models.rs`: empty key returns the whole state, otherwise
the key's dots are turned into slashes and resolved as a JSON pointer. -/
def get_state (state : Json) (key : Str) : Option Json :=
  if key = [] then some state
  else jsonPointer state ('/' :: key.map dotToSlash)

/-- The resolution procedure as the specification words it (section 4.2): split
the non-empty key on `'.'` and treat the segments as nested lookups — mapping
keys, or sequence indices when a segment parses as an unsigned integer "by
convention of the path-resolution mechanism".  Used as the comparison point for
the refinement claims about `get_state`. -/
def dotResolve (state : Json) (key : Str) : Option Json :=
  if key = [] then some state
  else resolveSegs state (splitOnChar '.' key)

/-! ## On slash-free, tilde-free keys the pointer walk is the dotted walk -/

theorem mem_of_mem_splitOnChar {sep : Char} :
    ∀ {l seg : Str} {c : Char}, seg ∈ splitOnChar sep l → c ∈ seg → c ∈ l := by
  intro l
  induction l with
  | nil =>
    intro seg c hseg hc
    simp [splitOnChar] at hseg
    subst hseg
    simp at hc
  | cons c' rest ih =>
    intro seg c hseg hc
    rw [splitOnChar] at hseg
    split at hseg
    · rcases List.mem_cons.mp hseg with rfl | hseg'
      · simp at hc
      · exact List.mem_cons_of_mem _ (ih hseg' hc)
    · revert hseg
      split
      · next s ss hsplit =>
        intro hseg
        rcases List.mem_cons.mp hseg with rfl | hseg'
        · rcases List.mem_cons.mp hc with rfl | hc'
          · exact List.mem_cons_self ..
          · exact List.mem_cons_of_mem _ (ih (hsplit ▸ List.mem_cons_self s ss) hc')
        · exact List.mem_cons_of_mem _ (ih (hsplit ▸ List.mem_cons_of_mem s hseg') hc)
      · next hsplit => exact absurd hsplit (splitOnChar_ne_nil sep rest)

theorem replaceEsc_no_tilde (d rep : Char) :
    ∀ t : Str, '~' ∉ t → replaceEsc d rep t = t
  | [], _ => rfl
  | [c], _ => rfl
  | c :: c' :: rest, h => by
    have hc : c ≠ '~' := fun hh => h (hh ▸ List.mem_cons_self ..)
    have hrest : '~' ∉ c' :: rest := fun hm => h (List.mem_cons_of_mem _ hm)
    rw [replaceEsc, if_neg (fun hand => hc hand.1),
      replaceEsc_no_tilde d rep (c' :: rest) hrest]

theorem unescapeToken_no_tilde {t : Str} (h : '~' ∉ t) : unescapeToken t = t := by
  rw [unescapeToken, replaceEsc_no_tilde '1' '/' t h, replaceEsc_no_tilde '0' '~' t h]

theorem splitOnChar_map_dotToSlash {key : Str} (h : '/' ∉ key) :
    splitOnChar '/' (key.map dotToSlash) = splitOnChar '.' key := by
  induction key with
  | nil => rfl
  | cons c rest ih =>
    have hc : c ≠ '/' := fun hh => h (hh ▸ List.mem_cons_self ..)
    have hrest : '/' ∉ rest := fun hm => h (List.mem_cons_of_mem _ hm)
    rw [List.map_cons]
    by_cases hdot : c = '.'
    · subst hdot
      rw [show dotToSlash '.' = '/' from rfl]
      rw [splitOnChar, if_pos rfl, ih hrest, splitOnChar, if_pos rfl]
    · rw [show dotToSlash c = c from if_neg hdot]
      rw [splitOnChar, if_neg hc, ih hrest, splitOnChar, if_neg hdot]

/-- On keys free of `'/'` and `'~'`, `get_state` is exactly the dot-separated
nested lookup the specification describes. -/
theorem get_state_eq_dotResolve (s : Json) (key : Str)
    (hslash : '/' ∉ key) (htilde : '~' ∉ key) :
    get_state s key = dotResolve s key := by
  rw [get_state, dotResolve]
  by_cases hnil : key = []
  · rw [if_pos hnil, if_pos hnil]
  · rw [if_neg hnil, if_neg hnil, jsonPointer, if_pos rfl]
    have hsplit : splitOnChar '/' ('/' :: key.map dotToSlash)
        = [] :: splitOnChar '/' (key.map dotToSlash) := by
      rw [splitOnChar, if_pos rfl]
    rw [hsplit, List.drop_one, List.tail_cons, splitOnChar_map_dotToSlash hslash]
    have hmap : (splitOnChar '.' key).map unescapeToken = splitOnChar '.' key := by
      have hid : ∀ seg ∈ splitOnChar '.' key, unescapeToken seg = id seg := by
        intro seg hseg
        refine unescapeToken_no_tilde ?_
        intro hmem
        exact htilde (mem_of_mem_splitOnChar hseg hmem)
      rw [List.map_congr_left hid, List.map_id]
    rw [hmap]

/-! ## Error taxonomy (`error.rs`) -/

/-- The `RstateError` from `error.rs` (the `Io`/`PluginInvoke` transports carry
host errors carried as their display strings; the Io variant is named ioError here). -/
inductive RstateError where
  | ioError (msg : Str)
  | state (msg : Str)
  | emit (msg : Str)
  | serialization (msg : Str)
  | actionNotFound (kind : Str)
  | invalidPayload (msg : Str)
  | missingPayload (kind : Str)
  | notRegistered
  | lockPoisoned (msg : Str)
  deriving DecidableEq

namespace Rst

/-! ## Actions (`models.rs`)

Rust's generic serialization boundary (`T: Serialize` / `T: DeserializeOwned`)
is embedded by passing the (possibly failing) encode/decode functions
explicitly; their error strings are whatever `serde_json` would report. -/

/-- The `Action` from `models.rs`. -/
structure Action where
  kind : Str
  payload : Option Json

/-- The `Action::new(kind)`: no payload. -/
def Action.new (kind : Str) : Action := ⟨kind, none⟩

/-- The `Action::with_payload(kind, v)`: serialize the payload, mapping a serde
failure to `RstateError::Serialization`. -/
def Action.with_payload {τ : Type _} (toJson : τ → Except Str Json)
    (kind : Str) (v : τ) : Except RstateError Action :=
  match toJson v with
  | .ok j => .ok ⟨kind, some j⟩
  | .error msg => .error (.serialization msg)

/-- The `Action::with_json(kind, value)`: store the raw value. -/
def Action.with_json (kind : Str) (payload : Json) : Action := ⟨kind, some payload⟩

/-- The `Action::require_payload::<T>()`: error `MissingPayload(kind)` when the
payload is absent, `InvalidPayload` when deserialization fails. -/
def Action.require_payload {τ : Type _} (fromJson : Json → Except Str τ)
    (a : Action) : Except RstateError τ :=
  match a.payload with
  | some v =>
    match fromJson v with
    | .ok t => .ok t
    | .error msg => .error (.invalidPayload msg)
  | none => .error (.missingPayload a.kind)

/-- The `Action::payload_as::<T>()`: absent payload is `Ok(None)`, not an error. -/
def Action.payload_as {τ : Type _} (fromJson : Json → Except Str τ)
    (a : Action) : Except RstateError (Option τ) :=
  match a.payload with
  | some v =>
    match fromJson v with
    | .ok t => .ok (some t)
    | .error msg => .error (.invalidPayload msg)
  | none => .ok none

/-- The `Action::has_payload`. -/
def Action.has_payload (a : Action) : Bool := a.payload.isSome

/-- The `Action::is(kind)`. -/
def Action.is (a : Action) (kind : Str) : Bool := decide (a.kind = kind)

/-! ## The built state manager (`state_builder.rs`)

A handler `Fn(&mut T, &Action) -> Result<()>` mutates the state in place and may
also fail, in which case the state keeps whatever incomplete mutation the handler
performed; it is embedded as a function returning the new state together with
the optional error. -/

/-- The `ActionHandler<T>`. -/
def Handler (T : Type _) := T → Action → T × Option RstateError

/-- The `BuiltStateManager<T>`: the state cell, the `HashMap` of handlers (keys are
unique since `StateBuilder::on` overwrites duplicates), the optional default
handler, and `T`'s `Serialize` implementation (`serde_json::to_value`). -/
structure BuiltStateManager (T : Type _) where
  state : T
  handlers : List (Str × Handler T)
  default_handler : Option (Handler T)
  serialize : T → Except Str Json

/-- The `HashMap::get` on the handler table. -/
def lookupHandler {T : Type _} (hs : List (Str × Handler T)) (k : Str) :
    Option (Handler T) :=
  match hs with
  | [] => none
  | (k', h) :: rest => if k' = k then some h else lookupHandler rest k

/-- The `serde_json::to_value(&*state).map_err(serialization)`. -/
def serOut {T : Type _} (ser : T → Except Str Json) (s : T) :
    Except RstateError Json :=
  match ser s with
  | .ok j => .ok j
  | .error msg => .error (.serialization msg)

/-- The `BuiltStateManager::get_initial_state`: serialize the state, falling back
to `Null` on failure. -/
def BuiltStateManager.get_initial_state {T : Type _} (m : BuiltStateManager T) :
    Json :=
  match m.serialize m.state with
  | .ok j => j
  | .error _ => Json.null

/-- The `BuiltStateManager::dispatch` (`state_builder.rs` lines 294-310): run the
kind-specific handler if present, else the default handler if present, else do
nothing; a handler error aborts before serialization; otherwise serialize and
return the updated state. -/
def BuiltStateManager.dispatch {T : Type _} (m : BuiltStateManager T)
    (a : Action) : BuiltStateManager T × Except RstateError Json :=
  match lookupHandler m.handlers a.kind with
  | some h =>
    match h m.state a with
    | (s', some e) => ({ m with state := s' }, .error e)
    | (s', none) => ({ m with state := s' }, serOut m.serialize s')
  | none =>
    match m.default_handler with
    | some h =>
      match h m.state a with
      | (s', some e) => ({ m with state := s' }, .error e)
      | (s', none) => ({ m with state := s' }, serOut m.serialize s')
    | none => (m, serOut m.serialize m.state)

/-! ## The store facade (`desktop.rs`)

`Rstate` holds only an app handle; the state manager lives in Tauri's
process-wide managed-state slot (`ManagedState`), looked up by type on every
call.  The slot is the `Option σ` below; emitted events and the lock/unlock
history of one call are recorded so that ordering claims are expressible.
The notification transport itself is host-owned and out of scope, so `emit`
is modelled as appending to the event log.  (The facade's `get_state` method
is a pass-through of the model-level `get_state` over `get_initial_state` and
adds nothing the claims mention.) -/

/-- An abstract `RstateManager` trait object: the two capabilities the facade
uses. -/
structure ManagerOps (σ : Type _) where
  get_initial_state : σ → Json
  dispatch : σ → Action → σ × Except RstateError Json

/-- The `BuiltStateManager<T>` seen through the `RstateManager` trait. -/
def bsmOps (T : Type _) : ManagerOps (BuiltStateManager T) where
  get_initial_state := BuiltStateManager.get_initial_state
  dispatch := BuiltStateManager.dispatch

/-- The host application: Tauri's managed-state slot for `ManagedState`, plus
the log of state-update notifications emitted so far. -/
structure AppState (σ : Type _) where
  slot : Option σ
  emitted : List Json

/-- Events of one facade call: mutex acquisition, mutex release, event
emission. -/
inductive Ev where
  | lock
  | unlock
  | emit (payload : Json)

def Ev.isLock : Ev → Bool
  | .lock => true
  | _ => false

def Ev.isUnlock : Ev → Bool
  | .unlock => true
  | _ => false

/-- The `Rstate::is_registered`. -/
def Rstate.is_registered {σ : Type _} (app : AppState σ) : Bool := app.slot.isSome

/-- The `Rstate::get_initial_state`. -/
def Rstate.get_initial_state {σ : Type _} (ops : ManagerOps σ) (app : AppState σ) :
    Except RstateError Json :=
  match app.slot with
  | none => .error .notRegistered
  | some s => .ok (ops.get_initial_state s)

/-- The `Rstate::dispatch` (`desktop.rs` lines 156-183): look the manager up, and
inside the lock scope read the current serialized state and run the manager's
dispatch; the scope ends (the guard drops, also on the error path of the `?`),
and only then, if the states are not structurally equal, emit the update event
carrying the new state; return the new state.  Returns the new app, the call
result, and the event trace of the call. -/
def Rstate.dispatch {σ : Type _} (ops : ManagerOps σ) (app : AppState σ)
    (a : Action) : AppState σ × Except RstateError Json × List Ev :=
  match app.slot with
  | none => (app, .error .notRegistered, [])
  | some s =>
    let current := ops.get_initial_state s
    match ops.dispatch s a with
    | (s', .error e) => ({ app with slot := some s' }, .error e, [.lock, .unlock])
    | (s', .ok updated) =>
      if statesAreEqual current updated then
        ({ app with slot := some s' }, .ok updated, [.lock, .unlock])
      else
        ({ app with slot := some s', emitted := app.emitted ++ [updated] },
          .ok updated, [.lock, .unlock, .emit updated])

/-- The `Rstate::dispatch_kind`. -/
def Rstate.dispatch_kind {σ : Type _} (ops : ManagerOps σ) (app : AppState σ)
    (kind : Str) : AppState σ × Except RstateError Json × List Ev :=
  Rstate.dispatch ops app (Action.new kind)

/-- Tauri's `Manager::manage` (external collaborator, modelled after its
documented semantics): the typed slot is written only when it is still empty;
when a value of the type is already managed the call returns `false` and the
new value is dropped — it does NOT replace the existing one. -/
def tauriManage {σ : Type _} (app : AppState σ) (m : σ) : AppState σ × Bool :=
  match app.slot with
  | some _ => (app, false)
  | none => ({ app with slot := some m }, true)

/-- The `Rstate::register_state_manager` (`desktop.rs` lines 227-231, identically
`mobile.rs` lines 111-115): wrap the manager and hand it to `app.manage`,
ignoring the returned boolean, and report success. -/
def Rstate.register_state_manager {σ : Type _} (app : AppState σ) (m : σ) :
    AppState σ × Except RstateError Unit :=
  ((tauriManage app m).1, .ok ())

end Rst

/-! ## Claim C8: reflexivity, symmetry, order-insensitivity of `states_are_equal` -/

theorem intCast_abs_sub_ge_one {x y : Int} (h : x ≠ y) :
    (1 : ℚ) ≤ |(x : ℚ) - (y : ℚ)| := by
  have h1 : (1 : Int) ≤ |x - y| := Int.one_le_abs (sub_ne_zero.mpr h)
  have h2 : ((1 : Int) : ℚ) ≤ ((|x - y| : Int) : ℚ) := by exact_mod_cast h1
  simpa [Int.cast_abs, Int.cast_sub] using h2

/-- A concrete two-entry object used to witness claim C8. -/
def wfObjA : List (Str × Json) :=
  [("x".toList, Json.num (.posInt 1)), ("y".toList, Json.bool true)]

/-- C8: structural equality over Dynamic Values is reflexive
(`structurallyEqual(x, x)` for every well-formed `x`), symmetric
(`structurallyEqual(a, b) = structurallyEqual(b, a)`), and the mapping
comparison is order-insensitive (an object equals any permutation of its
entries).  Well-formedness (no duplicate object keys) is what real
`serde_json` maps always guarantee. -/
theorem spec_c8_deep_equality_refl_symm (a b : Json) (kvs kvs' : List (Str × Json))
    (hwa : jsonWf a = true) (hwb : jsonWf b = true)
    (hkvs : jsonWf (Json.obj kvs) = true) (hperm : List.Perm kvs' kvs) :
    statesAreEqual a a = true ∧
      statesAreEqual a b = statesAreEqual b a ∧
      statesAreEqual (Json.obj kvs) (Json.obj kvs') = true :=
  ⟨statesAreEqual_refl a hwa, statesAreEqual_symm a b hwa hwb,
    statesAreEqual_obj_perm hkvs hperm⟩

theorem spec_c8_witness :
    statesAreEqual (Json.obj wfObjA) (Json.obj wfObjA) = true ∧
      statesAreEqual (Json.obj wfObjA) Json.null
        = statesAreEqual Json.null (Json.obj wfObjA) ∧
      statesAreEqual (Json.obj wfObjA) (Json.obj wfObjA.reverse) = true :=
  spec_c8_deep_equality_refl_symm (Json.obj wfObjA) Json.null wfObjA wfObjA.reverse
    (by simp [wfObjA, jsonEntriesWf, keyList])
    (by simp)
    (by simp [wfObjA, jsonEntriesWf, keyList])
    (List.reverse_perm wfObjA)

/-! ## Claim C9: the numeric equality rule -/

/-- The numeric comparison exactly as the claim words it: equal when both parse
as integers and the integers are equal; otherwise, when both parse as floating
point and the absolute difference is strictly below machine epsilon. -/
def numbersEqualSpec (a b : JNumber) : Prop :=
  (∃ x y, a.asI64 = some x ∧ b.asI64 = some y ∧ x = y) ∨
  ((¬ ∃ x y, a.asI64 = some x ∧ b.asI64 = some y ∧ x = y) ∧
    ∃ p q, a.asF64 = some p ∧ b.asF64 = some q ∧ |p - q| < f64Epsilon)

/-- C9: for every pair of numeric Dynamic Values, the `Number` arm of
`states_are_equal` holds exactly when the claim's description holds: both
parse as the same integer, or otherwise both parse as floating point with
absolute difference strictly below `f64::EPSILON`.  (Floats are exact
rationals here; both sides of the equivalence use the same numeric views, so
the equivalence is insensitive to that choice.) -/
theorem spec_c9_number_equality (a b : JNumber) :
    numbersEqual a b = true ↔ numbersEqualSpec a b := by
  rw [numbersEqual, numbersEqualSpec]
  cases ha : a.asI64 with
  | some x =>
    cases hb : b.asI64 with
    | some y =>
      simp only [JNumber.asF64_eq, Option.some.injEq, decide_eq_true_eq,
        JNumber.toRat_of_asI64 ha, JNumber.toRat_of_asI64 hb]
      constructor
      · intro hxy
        exact .inl ⟨x, y, rfl, rfl, hxy⟩
      · rintro (⟨x', y', hx', hy', hxy'⟩ | ⟨_, p, q, hp, hq, hpq⟩)
        · cases hx'; cases hy'; exact hxy'
        · cases hp; cases hq
          by_contra hxy
          have hge := intCast_abs_sub_ge_one hxy
          have := lt_of_le_of_lt hge (lt_trans hpq f64Epsilon_lt_one)
          exact absurd this (lt_irrefl 1)
    | none =>
      have hnofst : ¬ ∃ x' y', x = x' ∧ (none : Option Int) = some y' ∧ x' = y' := by
        rintro ⟨x', y', -, hy, -⟩
        cases hy
      simp only [JNumber.asF64_eq, Option.some.injEq]
      constructor
      · intro h
        refine .inr ⟨hnofst, a.toRat, b.toRat, rfl, rfl, ?_⟩
        simpa using h
      · rintro (habs | ⟨-, p, q, hp, hq, hpq⟩)
        · exact absurd habs hnofst
        · subst hp; subst hq
          simpa using hpq
  | none =>
    have hfalse : ¬ ∃ x y, (none : Option Int) = some x ∧ b.asI64 = some y ∧ x = y := by
      rintro ⟨x, y, hx, -, -⟩
      cases hx
    simp only [JNumber.asF64_eq, Option.some.injEq]
    constructor
    · intro h
      refine .inr ⟨hfalse, a.toRat, b.toRat, rfl, rfl, ?_⟩
      revert h
      cases b.asI64 <;> simp
    · rintro (habs | ⟨-, p, q, hp, hq, hpq⟩)
      · exact absurd habs hfalse
      · subst hp; subst hq
        cases b.asI64 <;> simp [hpq]

/-! ## Claims C6 and C10: `get_state` key resolution -/

/-- A state whose single mapping key is the literal string "a~1b". -/
def c6CexState : Json := Json.obj [("a~1b".toList, Json.num (.posInt 1))]

/-- C6 counterexample: the claim reads every non-empty key as dot-separated
segments resolved by nested lookups, but on the key "a~1b" (one dot-free
segment) that reading finds the entry stored under the literal key "a~1b"
while `get_state` unescapes the JSON-pointer token "a~1b" to "a/b" and finds
nothing. -/
theorem spec_c6_counterexample :
    dotResolve c6CexState ("a~1b".toList) = some (Json.num (.posInt 1)) ∧
      get_state c6CexState ("a~1b".toList) = none := by
  constructor
  · rfl
  · rfl

/-- A small nested state used to witness the dot-path claims. -/
def themeState : Json :=
  Json.obj [("theme".toList, Json.obj [("dark".toList, Json.bool true)])]

/-- C6 (amended): `get_state(state, "")` returns a clone of the whole state;
`get_state` is total (it yields a value or absence, never an error — its
result type is an `Option`); and every non-empty key free of the JSON-pointer
metacharacters `'/'` and `'~'` is treated as dot-separated segments resolved
as nested lookups (`dotResolve`), yielding absence when any segment is
missing or the nesting does not match.  Keys containing `'/'` or `'~'` are
instead reinterpreted through JSON-pointer splitting and unescaping. -/
theorem spec_c6_get_state_amended (s : Json) (key : Str)
    (hslash : '/' ∉ key) (htilde : '~' ∉ key) :
    get_state s [] = some s ∧ get_state s key = dotResolve s key :=
  ⟨by rw [get_state, if_pos rfl], get_state_eq_dotResolve s key hslash htilde⟩

theorem spec_c6_witness :
    get_state themeState [] = some themeState ∧
      get_state themeState ("theme.dark".toList)
        = dotResolve themeState ("theme.dark".toList) :=
  spec_c6_get_state_amended themeState ("theme.dark".toList) (by decide) (by decide)

/-- A state whose single mapping key is the literal string "a/b". -/
def c10SlashKeyState : Json := Json.obj [("a/b".toList, Json.num (.posInt 1))]

/-- A state holding both a nested `a.b` path and a literal "a/b" key. -/
def c10NestedState : Json :=
  Json.obj [("a".toList, Json.obj [("b".toList, Json.num (.posInt 2))]),
    ("a/b".toList, Json.num (.posInt 1))]

/-- A state whose single mapping key is the literal string "a~b". -/
def c10TildeState : Json := Json.obj [("a~b".toList, Json.num (.posInt 1))]

/-- C10 counterexample: the claim concludes that a mapping key containing a
literal `'/'` can never be addressed, but the key string "a~1b" unescapes, via
the JSON-pointer `~1` escape, to exactly the mapping key "a/b" and retrieves
its value. -/
theorem spec_c10_counterexample :
    get_state c10SlashKeyState ("a~1b".toList) = some (Json.num (.posInt 1)) := by
  rfl

/-- C10 (amended): `get_state` resolves a non-empty key by replacing every
`'.'` with `'/'` and evaluating the result as a JSON pointer, so a key segment
containing `'/'` (such as "a/b") is resolved as two nested lookups rather
than one literal mapping key; segments follow the JSON-pointer escapes
(`~1` for `'/'`, `~0` for `'~'`), so a mapping key containing `'/'` is not
found by its literal spelling but is addressable through its escaped
spelling; and plain dot-separated keys free of `'/'` and `'~'` behave as the
specification describes. -/
theorem spec_c10_pointer_resolution :
    get_state c10NestedState ("a/b".toList) = some (Json.num (.posInt 2)) ∧
      get_state c10SlashKeyState ("a/b".toList) = none ∧
      get_state c10TildeState ("a~0b".toList) = some (Json.num (.posInt 1)) ∧
      ∀ (s : Json) (key : Str), '/' ∉ key → '~' ∉ key →
        get_state s key = dotResolve s key := by
  refine ⟨by rfl, by rfl, by rfl, ?_⟩
  intro s key h1 h2
  exact get_state_eq_dotResolve s key h1 h2

theorem spec_c10_witness :
    get_state c10NestedState ("a".toList) = dotResolve c10NestedState ("a".toList) :=
  spec_c10_pointer_resolution.2.2.2 c10NestedState ("a".toList) (by decide) (by decide)

namespace Rst

/-! ## Claim C7: the payload contract of `Action` -/

/-- C7: `require_payload` on an action built via `Action::new(kind)` always
fails with `MissingPayload(kind)`; and whenever `with_payload(kind, v)`
succeeds and the decoder inverts the encoder on `v` (serde's round-trip
contract for the payload type), `require_payload` on the resulting action
returns `v` unchanged. -/
theorem spec_c7_payload_contract {τ : Type _}
    (toJson : τ → Except Str Json) (fromJson : Json → Except Str τ)
    (kind : Str) (v : τ) (act : Action)
    (hrt : ∀ j, toJson v = .ok j → fromJson j = .ok v)
    (hok : Action.with_payload toJson kind v = .ok act) :
    Action.require_payload fromJson (Action.new kind)
        = .error (.missingPayload kind) ∧
      Action.require_payload fromJson act = .ok v := by
  constructor
  · rfl
  · rw [Action.with_payload] at hok
    cases ht : toJson v with
    | ok j =>
      rw [ht] at hok
      cases hok
      rw [Action.require_payload]
      simp only [hrt j ht]
    | error msg =>
      rw [ht] at hok
      cases hok

/-- Encoder for the witness payload type. -/
def boolToJson (b : Bool) : Except Str Json := .ok (Json.bool b)

/-- Decoder for the witness payload type. -/
def boolFromJson : Json → Except Str Bool
  | .bool b => .ok b
  | _ => .error ("invalid type: expected a boolean".toList)

theorem spec_c7_witness :
    Action.require_payload boolFromJson (Action.new ("SET".toList))
        = .error (.missingPayload ("SET".toList)) ∧
      Action.require_payload boolFromJson ⟨"SET".toList, some (Json.bool true)⟩
        = .ok true :=
  spec_c7_payload_contract boolToJson boolFromJson ("SET".toList) true
    ⟨"SET".toList, some (Json.bool true)⟩
    (fun j hj => by cases hj; rfl)
    rfl

/-! ## Claim C2: unmatched action kinds are a no-op -/

/-- C2: when an action's kind has no registered handler and no default handler
is registered, `BuiltStateManager::dispatch` is not an error, performs no
mutation (the manager is returned unchanged), and returns exactly the
serialization of the current state — hence a value structurally equal to it
(structural equality is reflexive on well-formed values). -/
theorem spec_c2_unmatched_kind_noop {T : Type _} (m : BuiltStateManager T)
    (a : Action) (j : Json)
    (hnone : lookupHandler m.handlers a.kind = none)
    (hdef : m.default_handler = none)
    (hser : m.serialize m.state = .ok j) :
    m.dispatch a = (m, .ok j) ∧
      (jsonWf j = true → statesAreEqual j j = true) := by
  constructor
  · simp [BuiltStateManager.dispatch, hnone, hdef, serOut, hser]
  · intro hwf
    exact statesAreEqual_refl j hwf

/-- A handler incrementing a counter, for the witnesses. -/
def incrHandler : Handler Nat := fun n _ => (n + 1, none)

/-- Serialization of the counter state, for the witnesses. -/
def natSerialize : Nat → Except Str Json := fun n => .ok (Json.num (.posInt n))

/-- The scenario-2 store of the specification: counter 5, one INCREMENT
handler, no default. -/
def demoBsm : BuiltStateManager Nat where
  state := 5
  handlers := [("INCREMENT".toList, incrHandler)]
  default_handler := none
  serialize := natSerialize

theorem spec_c2_witness :
    demoBsm.dispatch (Action.new ("NOOP".toList))
        = (demoBsm, .ok (Json.num (.posInt 5))) ∧
      (jsonWf (Json.num (.posInt 5)) = true
        → statesAreEqual (Json.num (.posInt 5)) (Json.num (.posInt 5)) = true) :=
  spec_c2_unmatched_kind_noop demoBsm (Action.new ("NOOP".toList))
    (Json.num (.posInt 5)) rfl rfl rfl

/-! ## Claim C4: handler errors abort the dispatch and are forwarded -/

/-- C4: when the matched handler (kind-specific, or the default when no kind
matches) returns an error, `BuiltStateManager::dispatch` returns exactly that
error — the new state is never serialized (`m.serialize` is arbitrary here and
is not consulted on this path) — and the facade's dispatch forwards the same
error unchanged, emits no state-update notification, and its trace contains
no emit event. -/
theorem spec_c4_handler_error_forwarded {T : Type _} (m : BuiltStateManager T)
    (a : Action) (h : Handler T) (s' : T) (e : RstateError)
    (app : AppState (BuiltStateManager T))
    (hmatch : lookupHandler m.handlers a.kind = some h ∨
      (lookupHandler m.handlers a.kind = none ∧ m.default_handler = some h))
    (herr : h m.state a = (s', some e))
    (hslot : app.slot = some m) :
    (m.dispatch a).2 = .error e ∧
      (Rstate.dispatch (bsmOps T) app a).2.1 = .error e ∧
      (Rstate.dispatch (bsmOps T) app a).1.emitted = app.emitted ∧
      (Rstate.dispatch (bsmOps T) app a).2.2 = [Ev.lock, Ev.unlock] := by
  have hbsm : m.dispatch a = ({ m with state := s' }, .error e) := by
    rcases hmatch with hm | ⟨hn, hd⟩
    · simp [BuiltStateManager.dispatch, hm, herr]
    · simp [BuiltStateManager.dispatch, hn, hd, herr]
  refine ⟨by rw [hbsm], ?_, ?_, ?_⟩ <;>
    simp [Rstate.dispatch, hslot, bsmOps, hbsm]

/-- A handler that always fails without mutating, for the C4 witness. -/
def boomHandler : Handler Nat := fun n _ => (n, some (.state ("boom".toList)))

/-- A store whose only handler fails. -/
def boomBsm : BuiltStateManager Nat where
  state := 5
  handlers := [("BOOM".toList, boomHandler)]
  default_handler := none
  serialize := natSerialize

/-- An app with the failing store registered. -/
def boomApp : AppState (BuiltStateManager Nat) where
  slot := some boomBsm
  emitted := []

theorem spec_c4_witness :
    (boomBsm.dispatch (Action.new ("BOOM".toList))).2
        = .error (.state ("boom".toList)) ∧
      (Rstate.dispatch (bsmOps Nat) boomApp (Action.new ("BOOM".toList))).2.1
        = .error (.state ("boom".toList)) ∧
      (Rstate.dispatch (bsmOps Nat) boomApp (Action.new ("BOOM".toList))).1.emitted
        = boomApp.emitted ∧
      (Rstate.dispatch (bsmOps Nat) boomApp (Action.new ("BOOM".toList))).2.2
        = [Ev.lock, Ev.unlock] :=
  spec_c4_handler_error_forwarded boomBsm (Action.new ("BOOM".toList)) boomHandler
    5 (.state ("boom".toList)) boomApp (.inl rfl) rfl rfl

/-! ## Claim C1: change detection around the facade dispatch -/

/-- C1: for a registered manager whose dispatch of the action succeeds, the
facade captures the serialized state before dispatching, obtains the
post-dispatch serialized state, and appends a state-update notification
carrying the post-dispatch state to the emission log exactly when the two
are not structurally equal (so at most one notification per dispatch), and
always returns the post-dispatch state. -/
theorem spec_c1_change_detection {σ : Type _} (ops : ManagerOps σ)
    (app : AppState σ) (a : Action) (s s' : σ) (after : Json)
    (hslot : app.slot = some s)
    (hdisp : ops.dispatch s a = (s', .ok after)) :
    (Rstate.dispatch ops app a).2.1 = .ok after ∧
      (Rstate.dispatch ops app a).1.emitted =
        (if statesAreEqual (ops.get_initial_state s) after then app.emitted
         else app.emitted ++ [after]) ∧
      (Rstate.dispatch ops app a).1.emitted.length ≤ app.emitted.length + 1 := by
  by_cases hc : statesAreEqual (ops.get_initial_state s) after = true
  · simp [Rstate.dispatch, hslot, hdisp, hc]
  · simp [Rstate.dispatch, hslot, hdisp, hc]

/-- The scenario-1 manager of the specification: a counter whose dispatch
always increments. -/
def demoOps : ManagerOps Nat where
  get_initial_state := fun n => Json.num (.posInt n)
  dispatch := fun n _ => (n + 1, .ok (Json.num (.posInt (n + 1))))

/-- An app with the counter manager registered and nothing emitted yet. -/
def demoApp : AppState Nat where
  slot := some 0
  emitted := []

theorem spec_c1_witness :
    (Rstate.dispatch demoOps demoApp (Action.new ("INCREMENT".toList))).2.1
        = .ok (Json.num (.posInt 1)) :=
  (spec_c1_change_detection demoOps demoApp (Action.new ("INCREMENT".toList))
    0 1 (Json.num (.posInt 1)) rfl rfl).1

/-! ## Claim C5: the lock is released before the notification is emitted -/

/-- C5: in the event trace of a facade dispatch, any emit event is preceded by
a balanced number of lock acquisitions and releases (the lock is not held when
the emission runs), and the lock had indeed been taken and released earlier in
the call. -/
theorem spec_c5_lock_released_before_emit {σ : Type _} (ops : ManagerOps σ)
    (app : AppState σ) (a : Action) (pre post : List Ev) (p : Json)
    (h : (Rstate.dispatch ops app a).2.2 = pre ++ Ev.emit p :: post) :
    (pre.filter Ev.isLock).length = (pre.filter Ev.isUnlock).length ∧
      Ev.lock ∈ pre := by
  have htr : (Rstate.dispatch ops app a).2.2 = [] ∨
      (Rstate.dispatch ops app a).2.2 = [Ev.lock, Ev.unlock] ∨
      ∃ u, (Rstate.dispatch ops app a).2.2 = [Ev.lock, Ev.unlock, Ev.emit u] := by
    rcases hslot : app.slot with _ | s
    · simp [Rstate.dispatch, hslot]
    · rcases hd : ops.dispatch s a with ⟨s', r⟩
      cases r with
      | error e => simp [Rstate.dispatch, hslot, hd]
      | ok updated =>
        by_cases hc : statesAreEqual (ops.get_initial_state s) updated = true
        · simp [Rstate.dispatch, hslot, hd, hc]
        · refine .inr (.inr ⟨updated, ?_⟩)
          simp [Rstate.dispatch, hslot, hd, hc]
  rcases htr with h0 | h2 | ⟨u, h3⟩
  · rw [h0] at h
    simp at h
  · rw [h2] at h
    have hmem : Ev.emit p ∈ ([Ev.lock, Ev.unlock] : List Ev) := by
      rw [h]
      simp
    simp at hmem
  · rw [h3] at h
    rcases pre with _ | ⟨x, pre1⟩
    · simp at h
    rcases pre1 with _ | ⟨y, pre2⟩
    · simp at h
    rcases pre2 with _ | ⟨z, pre3⟩
    · simp only [List.cons_append, List.nil_append, List.cons.injEq] at h
      obtain ⟨hx, hy, -, -⟩ := h
      subst hx
      subst hy
      constructor
      · rfl
      · simp
    · have hlen := congrArg List.length h
      simp [List.length_append] at hlen

theorem spec_c5_witness :
    ((([Ev.lock, Ev.unlock] : List Ev).filter Ev.isLock).length
        = (([Ev.lock, Ev.unlock] : List Ev).filter Ev.isUnlock).length) ∧
      Ev.lock ∈ ([Ev.lock, Ev.unlock] : List Ev) := by
  have h01 : statesAreEqual (Json.num (.posInt 0)) (Json.num (.posInt 1)) = false := by
    rw [statesAreEqual_num]
    decide
  exact spec_c5_lock_released_before_emit demoOps demoApp
    (Action.new ("INCREMENT".toList)) [Ev.lock, Ev.unlock] []
    (Json.num (.posInt 1))
    (by simp [Rstate.dispatch, demoApp, demoOps, h01])

/-! ## Claim C3: registering over an existing manager -/

/-- The app used for the C3 counterexample: manager `0` already registered. -/
def c3App : AppState Nat where
  slot := some 0
  emitted := []

/-- C3 counterexample: with manager `0` already registered, registering the
new manager `1` raises no error but does NOT replace the slot's contents —
Tauri's `manage` keeps the first value and drops the new one — refuting the
claim that the call "replaces the previously installed manager in the
process-wide slot with the new one". -/
theorem spec_c3_counterexample :
    (Rstate.register_state_manager c3App 1).1.slot = some 0 ∧
      (Rstate.register_state_manager c3App 1).1.slot ≠ some 1 := by
  constructor
  · rfl
  · decide

/-- C3 (amended): `register_state_manager` never raises an error, and the
registration state machine never returns to Unregistered: after any call the
slot is occupied.  A first registration installs the given manager; a call
made while a manager is already registered keeps the previously installed
manager (the new one is discarded, not installed), so the machine goes
Registered → Registered on every subsequent call with the original manager
still in place. -/
theorem spec_c3_registration_amended {σ : Type _} (app : AppState σ) (m : σ) :
    (Rstate.register_state_manager app m).2 = .ok () ∧
      (Rstate.register_state_manager app m).1.slot = some (app.slot.getD m) ∧
      Rstate.is_registered (Rstate.register_state_manager app m).1 = true := by
  rcases happ : app.slot with _ | old <;>
    simp [Rstate.register_state_manager, tauriManage, Rstate.is_registered, happ]

end Rst
